import Mathlib

/-!
Verification of the local persistence and entry-lifecycle layer of the
Personal Logger PWA (`app.js`): the `LoggerDB` IndexedDB wrapper
(`init`, `saveEntry`, `getRecentEntries`) and the Alpine.js component's
`saveEntry` / `loadRecentEntries` write path.

The IndexedDB environment is embedded explicitly:
* an object store with `keyPath: 'id', autoIncrement: true` is a list of
  stored records together with a key generator (`nextId`, starting at 1);
  `store.add(entry)` injects the generated key and appends the record;
* the `timestamp` index enumerated with `openCursor(null, 'prev')` yields
  the records sorted descending by (timestamp key, primary key), where
  string keys are compared lexicographically by code unit;
* `indexedDB.open(name, version)` fires the upgrade handler exactly when
  the stored version is below the requested one.
-/

namespace Logger

/-- Code-unit comparison of two strings (as IndexedDB compares string
keys): lexicographic on the sequences of code units. -/
def strLt : List Char → List Char → Bool
  | [], [] => false
  | [], _ :: _ => true
  | _ :: _, [] => false
  | x :: xs, y :: ys =>
    if x.toNat < y.toNat then true
    else if y.toNat < x.toNat then false
    else strLt xs ys

/-- Comparison on `String` values via their character data. -/
def tsLt (a b : String) : Bool := strLt a.data b.data

/-- The set of characters removed by JavaScript's `String.prototype.trim`
(WhiteSpace and LineTerminator code points). -/
def isJsWhitespace (c : Char) : Bool :=
  let n := c.toNat
  n = 0x9 || n = 0xa || n = 0xb || n = 0xc || n = 0xd || n = 0x20 ||
  n = 0xa0 || n = 0xfeff || n = 0x1680 || (0x2000 ≤ n && n ≤ 0x200a) ||
  n = 0x2028 || n = 0x2029 || n = 0x202f || n = 0x205f || n = 0x3000

/-- JavaScript `String.prototype.trim`: drop leading and trailing
whitespace. -/
def jsTrim (s : String) : String :=
  ⟨((s.data.dropWhile isJsWhitespace).reverse.dropWhile isJsWhitespace).reverse⟩

/-- A record stored in the `entries` object store: the `id` injected by the
key generator plus the four fields the application writes
(`app.js` lines 232-237). -/
structure Entry where
  id : Nat
  type : String
  content : String
  timestamp : String
  synced : Bool
deriving DecidableEq, Repr

/-- The value handed to `LoggerDB.saveEntry` by a caller: all fields except
`id`, which the store assigns (keyPath `id` with `autoIncrement`). -/
structure EntryData where
  type : String
  content : String
  timestamp : String
  synced : Bool
deriving DecidableEq, Repr

/-- State of the `PersonalLogger` IndexedDB database: the stored version,
the schema (object store names and the index names on `entries`), the
stored records in insertion order, and the `entries` key generator. -/
structure DBState where
  version : Nat
  objectStoreNames : List String
  entryIndexNames : List String
  entries : List Entry
  nextId : Nat
deriving DecidableEq, Repr

/-- A database that has never been created: version 0, no schema, no
records; the key generator of a store created later starts at 1. -/
def freshDB : DBState :=
  { version := 0, objectStoreNames := [], entryIndexNames := [],
    entries := [], nextId := 1 }

/-- The `onupgradeneeded` handler (`app.js` lines 27-39): create the
`entries` store with its `timestamp` and `type` indexes unless
`db.objectStoreNames.contains('entries')`. -/
def upgradeHandler (s : DBState) : DBState :=
  if s.objectStoreNames.contains "entries" then s
  else { s with objectStoreNames := s.objectStoreNames ++ ["entries"],
                entryIndexNames := s.entryIndexNames ++ ["timestamp", "type"],
                entries := [], nextId := 1 }

/-- `LoggerDB.init` (`app.js` lines 17-41): `indexedDB.open('PersonalLogger', 1)`
runs the upgrade handler when the stored version is below 1, then records
version 1. -/
def dbInit (s : DBState) : DBState :=
  if s.version < 1 then { upgradeHandler s with version := 1 } else s

/-- `LoggerDB.saveEntry` (`app.js` lines 46-50): `store.add(entry)` on the
`entries` store injects the generated key and appends the record verbatim;
the key generator advances. -/
def dbSaveEntry (s : DBState) (d : EntryData) : DBState :=
  { s with
      entries := s.entries ++
        [{ id := s.nextId, type := d.type, content := d.content,
           timestamp := d.timestamp, synced := d.synced }],
      nextId := s.nextId + 1 }

/-- Ascending order of the `timestamp` index: records sorted by
(timestamp key, primary key); `keyGE a b` says `a` comes at or after `b`
in that order, i.e. `a`'s index position key is ≥ `b`'s. -/
def keyGE (a b : Entry) : Prop :=
  tsLt b.timestamp a.timestamp = true ∨
    (b.timestamp = a.timestamp ∧ b.id ≤ a.id)

instance (a b : Entry) : Decidable (keyGE a b) := by
  unfold keyGE; infer_instance

/-- Strict version of the index order: `a`'s (timestamp, id) key is
strictly below `b`'s. -/
def keyLT (a b : Entry) : Prop :=
  tsLt a.timestamp b.timestamp = true ∨
    (a.timestamp = b.timestamp ∧ a.id < b.id)

instance (a b : Entry) : Decidable (keyLT a b) := by
  unfold keyLT; infer_instance

/-- Insert an entry into a list that is sorted descending by index key,
keeping it sorted. -/
def insertDesc (e : Entry) : List Entry → List Entry
  | [] => [e]
  | x :: xs => if keyGE e x then e :: x :: xs else x :: insertDesc e xs

/-- The `timestamp` index of the store read in `'prev'` (descending)
cursor direction: the stored records sorted descending by
(timestamp key, primary key). -/
def indexDesc : List Entry → List Entry
  | [] => []
  | x :: xs => insertDesc x (indexDesc xs)

/-- The cursor loop of `getRecentEntries` (`app.js` lines 60-72): follow
the descending cursor, pushing values while `entries.length < limit`;
`count` is the number of values already pushed.  The limit is an `Int`
because a JavaScript caller may pass a negative number. -/
def cursorTake (limit : Int) (count : Nat) : List Entry → List Entry
  | [] => []
  | e :: rest =>
    if (count : Int) < limit then e :: cursorTake limit (count + 1) rest
    else []

/-- `LoggerDB.getRecentEntries` (`app.js` lines 55-76): walk the
`timestamp` index in `'prev'` order collecting at most `limit` values.
The JavaScript default parameter `limit = 10` applies only when the
argument is absent; `getRecentEntriesNoArg` below models that call. -/
def getRecentEntries (s : DBState) (limit : Int) : List Entry :=
  cursorTake limit 0 (indexDesc s.entries)

/-- `getRecentEntries()` with the argument omitted: the default
`limit = 10` is used. -/
def getRecentEntriesNoArg (s : DBState) : List Entry :=
  getRecentEntries s 10

/-- Visible outcome of the component's `saveEntry` flow: early return with
the "Please enter some text" toast, successful save, or the catch branch's
"Failed to save entry" toast. -/
inductive SaveOutcome
  | validationError
  | saved
  | writeError
deriving DecidableEq, Repr

/-- The Alpine.js component state touched by the save/load path
(`app.js` lines 81-95): the database handle, the modal fields, the
in-memory `recentEntries` list, and the toast. -/
structure AppState where
  db : DBState
  showModal : Bool
  currentType : String
  entryText : String
  recentEntries : List Entry
  toastMessage : String
  showToast : Bool
deriving DecidableEq, Repr

/-- The component's `saveEntry` (`app.js` lines 223-256).  `now` is the
value of `new Date().toISOString()` at the save; `writeOk` says whether
the IndexedDB `add` transaction commits (IndexedDB transactions are
atomic: on abort nothing at all is written).  Empty trimmed text returns
early with a toast and no storage call; on success the entry (trimmed
content, stamped timestamp, `synced: false`) is stored,
`loadRecentEntries` refreshes the in-memory list from the store, and the
modal closes; on write failure only the failure toast is shown. -/
def uiSaveEntry (a : AppState) (now : String) (writeOk : Bool) :
    AppState × SaveOutcome :=
  if jsTrim a.entryText = "" then
    ({ a with toastMessage := "Please enter some text", showToast := true },
     SaveOutcome.validationError)
  else
    let entry : EntryData :=
      { type := a.currentType, content := jsTrim a.entryText,
        timestamp := now, synced := false }
    if writeOk then
      let db' := dbSaveEntry a.db entry
      ({ a with db := db',
                recentEntries := getRecentEntries db' 10,
                showModal := false, entryText := "", currentType := "",
                toastMessage := "Entry saved successfully", showToast := true },
       SaveOutcome.saved)
    else
      ({ a with toastMessage := "Failed to save entry", showToast := true },
       SaveOutcome.writeError)

/-- Fold a sequence of `LoggerDB.saveEntry` calls over the store. -/
def appendAll (s : DBState) (ds : List EntryData) : DBState :=
  ds.foldl dbSaveEntry s

/-- A concrete store with three saved entries, the last two sharing a
timestamp, used to instantiate the universally quantified theorems. -/
def sampleDB : DBState :=
  appendAll (dbInit freshDB)
    [ { type := "issue", content := "a",
        timestamp := "2025-01-01T08:00:00.000Z", synced := false },
      { type := "task", content := "b",
        timestamp := "2025-01-01T09:00:00.000Z", synced := false },
      { type := "note", content := "c",
        timestamp := "2025-01-01T09:00:00.000Z", synced := false } ]

/-- A concrete store holding a single saved entry. -/
def singleDB : DBState :=
  dbSaveEntry (dbInit freshDB)
    { type := "note", content := "x",
      timestamp := "2025-01-01T00:00:00.000Z", synced := false }

/-- A component state whose modal text is whitespace-only. -/
def blankApp : AppState :=
  { db := sampleDB, showModal := true, currentType := "note",
    entryText := "   ", recentEntries := [], toastMessage := "",
    showToast := false }

/-- A component state with valid (non-blank) modal text over `sampleDB`. -/
def okApp : AppState :=
  { db := sampleDB, showModal := true, currentType := "note",
    entryText := "  refill napkins  ", recentEntries := [],
    toastMessage := "", showToast := false }

/-- The timestamp used by the concrete first-append scenario. -/
def scenarioTime : String := "2025-01-01T00:00:00.000Z"

/-- The component state of the concrete first-append scenario: an empty,
freshly initialized store and the modal text `'  Spill in aisle 3  '` of
type `issue`. -/
def scenarioApp : AppState :=
  { db := dbInit freshDB, showModal := true, currentType := "issue",
    entryText := "  Spill in aisle 3  ", recentEntries := [],
    toastMessage := "", showToast := false }

/-- The record the first-append scenario is expected to store. -/
def scenarioEntry : Entry :=
  { id := 1, type := "issue", content := "Spill in aisle 3",
    timestamp := scenarioTime, synced := false }

theorem char_toNat_inj {x y : Char} (h : x.toNat = y.toNat) : x = y :=
  Char.eq_of_val_eq (UInt32.toNat.inj h)

theorem strLt_irrefl : ∀ a : List Char, strLt a a = false := by
  intro a
  induction a with
  | nil => rfl
  | cons x xs ih => simp [strLt, ih]

theorem strLt_cons_iff (x y : Char) (xs ys : List Char) :
    strLt (x :: xs) (y :: ys) = true ↔
      x.toNat < y.toNat ∨ (x.toNat = y.toNat ∧ strLt xs ys = true) := by
  simp only [strLt]
  by_cases h1 : x.toNat < y.toNat
  · simp [h1]
  · by_cases h2 : y.toNat < x.toNat
    · have h3 : ¬ x.toNat = y.toNat := by omega
      simp [h1, h2, h3]
    · have h3 : x.toNat = y.toNat := by omega
      simp [h1, h2, h3]

theorem strLt_trans : ∀ a b c : List Char,
    strLt a b = true → strLt b c = true → strLt a c = true := by
  intro a
  induction a with
  | nil =>
    intro b c hab hbc
    cases b <;> cases c <;> simp_all [strLt]
  | cons x xs ih =>
    intro b c hab hbc
    cases b with
    | nil => simp [strLt] at hab
    | cons y ys =>
      cases c with
      | nil => simp [strLt] at hbc
      | cons z zs =>
        rw [strLt_cons_iff] at hab hbc ⊢
        rcases hab with h | ⟨h, hxs⟩
        · rcases hbc with h2 | ⟨h2, hys⟩
          · exact Or.inl (by omega)
          · exact Or.inl (by omega)
        · rcases hbc with h2 | ⟨h2, hys⟩
          · exact Or.inl (by omega)
          · exact Or.inr ⟨by omega, ih ys zs hxs hys⟩

theorem strLt_asymm (a b : List Char) (h1 : strLt a b = true)
    (h2 : strLt b a = true) : False := by
  have h := strLt_trans a b a h1 h2
  rw [strLt_irrefl] at h
  cases h

theorem strLt_eq_of_not : ∀ a b : List Char,
    strLt a b = false → strLt b a = false → a = b := by
  intro a
  induction a with
  | nil =>
    intro b h1 h2
    cases b with
    | nil => rfl
    | cons y ys => simp [strLt] at h1
  | cons x xs ih =>
    intro b h1 h2
    cases b with
    | nil => simp [strLt] at h2
    | cons y ys =>
      simp only [strLt] at h1 h2
      by_cases hxy : x.toNat < y.toNat
      · simp [hxy] at h1
      · by_cases hyx : y.toNat < x.toNat
        · simp [hxy, hyx] at h2
        · have hEq : x = y := char_toNat_inj (by omega)
          simp only [hxy, hyx, if_false] at h1 h2
          rw [hEq, ih ys (by simpa using h1) (by simpa using h2)]

theorem tsLt_irrefl (a : String) : tsLt a a = false := strLt_irrefl a.data

theorem tsLt_trans {a b c : String} (h1 : tsLt a b = true)
    (h2 : tsLt b c = true) : tsLt a c = true :=
  strLt_trans a.data b.data c.data h1 h2

theorem tsLt_eq_of_not {a b : String} (h1 : tsLt a b = false)
    (h2 : tsLt b a = false) : a = b := by
  cases a with
  | mk da =>
    cases b with
    | mk db => exact congrArg String.mk (strLt_eq_of_not da db h1 h2)

theorem tsLt_false_of_ne_true {a b : String} (h : ¬ tsLt a b = true) :
    tsLt a b = false := by
  cases hab : tsLt a b
  · rfl
  · exact absurd hab h

theorem keyGE_total (a b : Entry) : keyGE a b ∨ keyGE b a := by
  unfold keyGE
  by_cases h1 : tsLt b.timestamp a.timestamp = true
  · exact Or.inl (Or.inl h1)
  · by_cases h2 : tsLt a.timestamp b.timestamp = true
    · exact Or.inr (Or.inl h2)
    · have heq : a.timestamp = b.timestamp :=
        tsLt_eq_of_not (tsLt_false_of_ne_true h2) (tsLt_false_of_ne_true h1)
      rcases Nat.le_total b.id a.id with hle | hle
      · exact Or.inl (Or.inr ⟨heq.symm, hle⟩)
      · exact Or.inr (Or.inr ⟨heq, hle⟩)

theorem keyGE_trans (a b c : Entry) (h1 : keyGE a b) (h2 : keyGE b c) :
    keyGE a c := by
  unfold keyGE at h1 h2 ⊢
  rcases h1 with h1 | ⟨h1e, h1i⟩
  · rcases h2 with h2 | ⟨h2e, h2i⟩
    · exact Or.inl (tsLt_trans h2 h1)
    · exact Or.inl (h2e ▸ h1)
  · rcases h2 with h2 | ⟨h2e, h2i⟩
    · exact Or.inl (h1e ▸ h2)
    · exact Or.inr ⟨h2e.trans h1e, h2i.trans h1i⟩

theorem keyGE_not_keyLT (a b : Entry) (h1 : keyGE a b) (h2 : keyLT a b) :
    False := by
  unfold keyGE at h1
  unfold keyLT at h2
  rcases h1 with h1 | ⟨h1e, h1i⟩
  · rcases h2 with h2 | ⟨h2e, h2i⟩
    · exact strLt_asymm _ _ h1 h2
    · rw [h2e] at h1
      rw [tsLt_irrefl] at h1
      cases h1
  · rcases h2 with h2 | ⟨h2e, h2i⟩
    · rw [h1e] at h2
      rw [tsLt_irrefl] at h2
      cases h2
    · omega

theorem keyLT_of_keyGE_of_ne (a b : Entry) (h : keyGE a b)
    (hne : a.id ≠ b.id) : keyLT b a := by
  unfold keyGE at h
  unfold keyLT
  rcases h with h | ⟨he, hi⟩
  · exact Or.inl h
  · exact Or.inr ⟨he, by omega⟩

theorem insertDesc_perm (e : Entry) (l : List Entry) :
    (insertDesc e l).Perm (e :: l) := by
  induction l with
  | nil => simp [insertDesc]
  | cons x xs ih =>
    simp only [insertDesc]
    split_ifs with h
    · exact List.Perm.refl _
    · exact (ih.cons x).trans (List.Perm.swap e x xs)

theorem indexDesc_perm (l : List Entry) : (indexDesc l).Perm l := by
  induction l with
  | nil => simp [indexDesc]
  | cons x xs ih =>
    exact (insertDesc_perm x (indexDesc xs)).trans (ih.cons x)

theorem indexDesc_length (l : List Entry) :
    (indexDesc l).length = l.length :=
  (indexDesc_perm l).length_eq

theorem pairwise_insertDesc (e : Entry) (l : List Entry)
    (h : List.Pairwise keyGE l) : List.Pairwise keyGE (insertDesc e l) := by
  induction l with
  | nil => simp [insertDesc]
  | cons x xs ih =>
    simp only [insertDesc]
    split_ifs with hge
    · refine List.Pairwise.cons ?_ h
      intro y hy
      rcases List.mem_cons.mp hy with rfl | hy2
      · exact hge
      · exact keyGE_trans e x y hge (List.rel_of_pairwise_cons h hy2)
    · have hx : keyGE x e := (keyGE_total e x).resolve_left hge
      refine List.Pairwise.cons ?_ (ih h.of_cons)
      intro y hy
      have hy2 : y ∈ e :: xs := (insertDesc_perm e xs).mem_iff.mp hy
      rcases List.mem_cons.mp hy2 with rfl | hy3
      · exact hx
      · exact List.rel_of_pairwise_cons h hy3

theorem pairwise_indexDesc (l : List Entry) :
    List.Pairwise keyGE (indexDesc l) := by
  induction l with
  | nil => simp [indexDesc]
  | cons x xs ih => exact pairwise_insertDesc x (indexDesc xs) ih

theorem head_of_max (l : List Entry) (e : Entry) (hmem : e ∈ l)
    (hsort : List.Pairwise keyGE l) (hmax : ∀ x ∈ l, x = e ∨ keyLT x e) :
    l.head? = some e := by
  cases l with
  | nil => cases hmem
  | cons h t =>
    by_cases hhe : h = e
    · simp [hhe]
    · rcases hmax h (List.mem_cons_self h t) with h1 | h1
      · exact absurd h1 hhe
      · have het : e ∈ t := by
          rcases List.mem_cons.mp hmem with h2 | h2
          · exact absurd h2.symm hhe
          · exact h2
        have hge : keyGE h e := List.rel_of_pairwise_cons hsort het
        exact absurd h1 (fun hlt => keyGE_not_keyLT h e hge hlt)

theorem indexDesc_head_of_max (l : List Entry) (e : Entry) (hmem : e ∈ l)
    (hmax : ∀ x ∈ l, x = e ∨ keyLT x e) :
    (indexDesc l).head? = some e :=
  head_of_max _ e ((indexDesc_perm l).mem_iff.mpr hmem) (pairwise_indexDesc l)
    (fun x hx => hmax x ((indexDesc_perm l).mem_iff.mp hx))

theorem cursorTake_eq_take (limit : Int) :
    ∀ (l : List Entry) (count : Nat),
      cursorTake limit count l = l.take (limit - count).toNat := by
  intro l
  induction l with
  | nil => intro count; simp [cursorTake]
  | cons e rest ih =>
    intro count
    by_cases h : (count : Int) < limit
    · have h1 : (limit - (count : Int)).toNat =
          (limit - ((count + 1 : Nat) : Int)).toNat + 1 := by
        push_cast
        omega
      rw [show cursorTake limit count (e :: rest) =
            e :: cursorTake limit (count + 1) rest by simp [cursorTake, h]]
      rw [ih (count + 1), h1, List.take_succ_cons]
    · rw [show cursorTake limit count (e :: rest) = [] by simp [cursorTake, h]]
      have h1 : (limit - (count : Int)).toNat = 0 := by omega
      rw [h1]
      simp

theorem getRecentEntries_eq_take (s : DBState) (limit : Int) :
    getRecentEntries s limit = (indexDesc s.entries).take limit.toNat := by
  unfold getRecentEntries
  rw [cursorTake_eq_take]
  norm_num

theorem dbInit_version (s : DBState) : 1 ≤ (dbInit s).version := by
  unfold dbInit
  split_ifs with h
  · simp
  · omega

theorem dbInit_of_ge (s : DBState) (h : 1 ≤ s.version) : dbInit s = s := by
  unfold dbInit
  rw [if_neg (by omega)]

theorem appendAll_map_id (ds : List EntryData) :
    ∀ s : DBState,
      (appendAll s ds).entries.map Entry.id =
        s.entries.map Entry.id ++ List.range' s.nextId ds.length ∧
      (appendAll s ds).nextId = s.nextId + ds.length := by
  induction ds with
  | nil => intro s; simp [appendAll]
  | cons d ds ih =>
    intro s
    have hstep : appendAll s (d :: ds) = appendAll (dbSaveEntry s d) ds := rfl
    have h := ih (dbSaveEntry s d)
    have hent : (dbSaveEntry s d).entries.map Entry.id =
        s.entries.map Entry.id ++ [s.nextId] := by
      simp [dbSaveEntry]
    have hnext : (dbSaveEntry s d).nextId = s.nextId + 1 := rfl
    constructor
    · rw [hstep, h.1, hent, hnext, List.length_cons, List.range'_succ,
        List.append_assoc]
      rfl
    · rw [hstep, h.2, hnext, List.length_cons]
      omega

/-- Claim C1: for every stored collection (with the store's key invariant
that ids are pairwise distinct) and every positive limit, the sequence
returned by `getRecentEntries` is ordered strictly descending by
timestamp, and among entries with equal timestamps the entry with the
higher id precedes the one with the lower id: every later element's
(timestamp, id) key is strictly below every earlier element's. -/
theorem listRecent_sorted_desc (s : DBState) (limit : Int)
    (hid : (s.entries.map Entry.id).Nodup) (hpos : 0 < limit) :
    List.Pairwise (fun a b => keyLT b a) (getRecentEntries s limit) := by
  have hsort : List.Pairwise keyGE (indexDesc s.entries) :=
    pairwise_indexDesc s.entries
  have hne : List.Pairwise (fun a b : Entry => a.id ≠ b.id) s.entries := by
    rw [List.Nodup, List.pairwise_map] at hid
    exact hid
  have hne2 : List.Pairwise (fun a b : Entry => a.id ≠ b.id)
      (indexDesc s.entries) :=
    ((indexDesc_perm s.entries).pairwise_iff
      (by intro a b hab hba; exact hab hba.symm)).mpr hne
  have hstrict : List.Pairwise (fun a b => keyLT b a) (indexDesc s.entries) :=
    (hsort.and hne2).imp (fun h => keyLT_of_keyGE_of_ne _ _ h.1 h.2)
  rw [getRecentEntries_eq_take]
  exact hstrict.sublist (List.take_sublist _ _)

/-- Witness for C1 at the concrete store `sampleDB` and limit 2. -/
theorem listRecent_sorted_desc_witness :
    (sampleDB.entries.map Entry.id).Nodup ∧ (0 : Int) < 2 ∧
    List.Pairwise (fun a b => keyLT b a) (getRecentEntries sampleDB 2) :=
  ⟨by decide, by decide, listRecent_sorted_desc sampleDB 2 (by decide) (by decide)⟩

/-- Claim C2: for every stored collection and every positive limit,
`getRecentEntries` returns exactly min(limit, total stored) entries, and
on an empty collection it returns the empty sequence (an ordinary value,
not an error). -/
theorem listRecent_length_min (s : DBState) (limit : Int) (hpos : 0 < limit) :
    ((getRecentEntries s limit).length : Int) =
      min limit (s.entries.length : Int) ∧
    (s.entries = [] → getRecentEntries s limit = []) := by
  constructor
  · rw [getRecentEntries_eq_take, List.length_take, indexDesc_length]
    omega
  · intro h
    rw [getRecentEntries_eq_take, h]
    simp [indexDesc]

/-- Witness for C2 at the concrete store `sampleDB` and limit 2. -/
theorem listRecent_length_min_witness :
    (0 : Int) < 2 ∧
    (((getRecentEntries sampleDB 2).length : Int) =
        min 2 (sampleDB.entries.length : Int) ∧
     (sampleDB.entries = [] → getRecentEntries sampleDB 2 = [])) :=
  ⟨by decide, listRecent_length_min sampleDB 2 (by decide)⟩

/-- Claim C3: whenever the modal text trims to the empty string, the
component's `saveEntry` returns the validation outcome ("Please enter
some text"), makes no storage call — the database state is unchanged —
and the stored collection's size is unchanged. -/
theorem saveEntry_empty_content_rejected (a : AppState) (now : String)
    (writeOk : Bool) (h : jsTrim a.entryText = "") :
    (uiSaveEntry a now writeOk).2 = SaveOutcome.validationError ∧
    (uiSaveEntry a now writeOk).1.db = a.db ∧
    (uiSaveEntry a now writeOk).1.db.entries.length = a.db.entries.length := by
  simp [uiSaveEntry, h]

/-- Witness for C3 at the concrete whitespace-text state `blankApp`. -/
theorem saveEntry_empty_content_rejected_witness :
    jsTrim blankApp.entryText = "" ∧
    ((uiSaveEntry blankApp "2025-01-02T00:00:00.000Z" true).2 =
        SaveOutcome.validationError ∧
     (uiSaveEntry blankApp "2025-01-02T00:00:00.000Z" true).1.db =
        blankApp.db ∧
     (uiSaveEntry blankApp "2025-01-02T00:00:00.000Z" true).1.db.entries.length =
        blankApp.db.entries.length) :=
  ⟨by decide,
   saveEntry_empty_content_rejected blankApp "2025-01-02T00:00:00.000Z" true
     (by decide)⟩

/-- Claim C4: for every component state with valid (non-blank after
trimming) modal text, on a store satisfying the key invariant and with
the save timestamp not below any stored timestamp (timestamps reflect
write order on a single device clock), a successful `saveEntry` followed
by `getRecentEntries n` with `n ≥ 1` yields the newly appended entry —
trimmed content, stamped timestamp, `synced = false`, store-assigned id —
as the first element. -/
theorem append_then_listRecent_head (a : AppState) (now : String) (n : Int)
    (hwf : ∀ e ∈ a.db.entries, e.id < a.db.nextId)
    (hclock : ∀ e ∈ a.db.entries, tsLt now e.timestamp = false)
    (hc : jsTrim a.entryText ≠ "") (hn : 1 ≤ n) :
    (getRecentEntries (uiSaveEntry a now true).1.db n).head? =
      some { id := a.db.nextId, type := a.currentType,
             content := jsTrim a.entryText, timestamp := now,
             synced := false } := by
  have hdb : (uiSaveEntry a now true).1.db =
      dbSaveEntry a.db
        { type := a.currentType, content := jsTrim a.entryText,
          timestamp := now, synced := false } := by
    simp [uiSaveEntry, hc]
  rw [hdb]
  have hent : (dbSaveEntry a.db
      { type := a.currentType, content := jsTrim a.entryText,
        timestamp := now, synced := false }).entries =
      a.db.entries ++
        [{ id := a.db.nextId, type := a.currentType,
           content := jsTrim a.entryText, timestamp := now,
           synced := false }] := rfl
  rw [getRecentEntries_eq_take, hent]
  have hmax : ∀ x ∈ a.db.entries ++
      [{ id := a.db.nextId, type := a.currentType,
         content := jsTrim a.entryText, timestamp := now,
         synced := false }],
      x = { id := a.db.nextId, type := a.currentType,
            content := jsTrim a.entryText, timestamp := now,
            synced := false } ∨
      keyLT x { id := a.db.nextId, type := a.currentType,
                content := jsTrim a.entryText, timestamp := now,
                synced := false } := by
    intro x hx
    rcases List.mem_append.mp hx with hx1 | hx1
    · right
      unfold keyLT
      by_cases hts : tsLt x.timestamp now = true
      · exact Or.inl hts
      · have heq : x.timestamp = now :=
          tsLt_eq_of_not (tsLt_false_of_ne_true hts) (hclock x hx1)
        exact Or.inr ⟨heq, hwf x hx1⟩
    · left
      simpa using hx1
  have hhead := indexDesc_head_of_max _ _
    (List.mem_append_right a.db.entries (List.mem_singleton.mpr rfl)) hmax
  rw [List.head?_take, if_neg (by omega : ¬ n.toNat = 0), hhead]

/-- Witness for C4: appending "  refill napkins  " over `sampleDB` at a
timestamp later than every stored one, then reading with limit 1. -/
theorem append_then_listRecent_head_witness :
    jsTrim okApp.entryText ≠ "" ∧ (1 : Int) ≤ 1 ∧
    (getRecentEntries
        (uiSaveEntry okApp "2025-01-01T10:00:00.000Z" true).1.db 1).head? =
      some { id := okApp.db.nextId, type := okApp.currentType,
             content := jsTrim okApp.entryText,
             timestamp := "2025-01-01T10:00:00.000Z", synced := false } :=
  ⟨by decide, by decide,
   append_then_listRecent_head okApp "2025-01-01T10:00:00.000Z" 1
     (by decide) (by decide) (by decide) (by decide)⟩

/-- Claim C5: starting from an empty, freshly initialized store, saving
`{type: 'issue', content: '  Spill in aisle 3  '}` stores exactly one
record, with content `'Spill in aisle 3'` (whitespace trimmed),
`synced = false` and `id = 1`, and a subsequent `getRecentEntries 10`
returns exactly that one entry. -/
theorem scenario_single_append :
    (uiSaveEntry scenarioApp scenarioTime true).1.db.entries =
      [scenarioEntry] ∧
    scenarioEntry.content = "Spill in aisle 3" ∧
    scenarioEntry.synced = false ∧
    scenarioEntry.id = 1 ∧
    getRecentEntries (uiSaveEntry scenarioApp scenarioTime true).1.db 10 =
      [scenarioEntry] := by
  decide

/-- Claim C6: `LoggerDB.init` is idempotent — a second call leaves the
database state exactly as the first left it: same schema (object stores
and indexes, so no duplicates are created) and the stored records
unaltered. -/
theorem init_idempotent (s : DBState) :
    dbInit (dbInit s) = dbInit s ∧
    (dbInit (dbInit s)).objectStoreNames = (dbInit s).objectStoreNames ∧
    (dbInit (dbInit s)).entryIndexNames = (dbInit s).entryIndexNames ∧
    (dbInit (dbInit s)).entries = (dbInit s).entries := by
  have h := dbInit_of_ge (dbInit s) (dbInit_version s)
  exact ⟨h, by rw [h], by rw [h], by rw [h]⟩

/-- Counterexample to C7 as stated: on a store holding one entry,
`getRecentEntries` with limit 0 returns the empty list, while the
no-argument call (default limit 10) returns that entry — a non-positive
limit is not treated as "use the default of 10". -/
theorem nonpositive_limit_counterexample :
    getRecentEntries singleDB 0 = [] ∧
    getRecentEntriesNoArg singleDB ≠ [] ∧
    getRecentEntries singleDB 0 ≠ getRecentEntriesNoArg singleDB ∧
    getRecentEntries singleDB (-1) = [] := by
  decide

/-- Claim C7 as amended: a missing limit uses the default of 10
(`getRecentEntriesNoArg` is the limit-10 call), but a non-positive limit
makes the cursor loop stop immediately, so `getRecentEntries` with limit
0 or a negative limit returns the empty sequence — never the default and
never all entries. -/
theorem nonpositive_limit_empty (s : DBState) (limit : Int)
    (h : limit ≤ 0) :
    getRecentEntries s limit = [] ∧
    getRecentEntriesNoArg s = getRecentEntries s 10 := by
  constructor
  · rw [getRecentEntries_eq_take]
    have h1 : limit.toNat = 0 := by omega
    rw [h1]
    simp
  · rfl

/-- Witness for the amended C7 at the concrete one-entry store. -/
theorem nonpositive_limit_empty_witness :
    (0 : Int) ≤ 0 ∧
    (getRecentEntries singleDB 0 = [] ∧
     getRecentEntriesNoArg singleDB = getRecentEntries singleDB 10) :=
  ⟨by decide, nonpositive_limit_empty singleDB 0 (by decide)⟩

/-- Claim C8: across every sequence of `LoggerDB.saveEntry` calls on a
freshly initialized store, the ids are assigned by the store itself
(the caller's `EntryData` carries no id): in insertion order they are
exactly 1, 2, …, n, hence strictly increasing in assignment order and
pairwise distinct. -/
theorem ids_strictly_increasing (ds : List EntryData) :
    (appendAll (dbInit freshDB) ds).entries.map Entry.id =
      List.range' 1 ds.length ∧
    List.Pairwise (· < ·)
      ((appendAll (dbInit freshDB) ds).entries.map Entry.id) ∧
    ((appendAll (dbInit freshDB) ds).entries.map Entry.id).Nodup := by
  have h := (appendAll_map_id ds (dbInit freshDB)).1
  have hinit : (dbInit freshDB).entries.map Entry.id = [] := rfl
  have hnext : (dbInit freshDB).nextId = 1 := rfl
  rw [hinit, hnext, List.nil_append] at h
  refine ⟨h, ?_, ?_⟩
  · rw [h]
    exact List.pairwise_lt_range' 1 ds.length
  · rw [h]
    exact (List.pairwise_lt_range' 1 ds.length).imp (fun hlt => Nat.ne_of_lt hlt)

/-- Claim C9: when the write transaction fails on valid content, the
failure is atomic — the database is exactly as before, so no (partial)
record is visible to a subsequent `getRecentEntries` at any limit — and
the component's in-memory `recentEntries` list is not updated (no
optimistic insert). -/
theorem write_failure_atomic (a : AppState) (now : String) (limit : Int)
    (hc : jsTrim a.entryText ≠ "") :
    (uiSaveEntry a now false).2 = SaveOutcome.writeError ∧
    (uiSaveEntry a now false).1.db = a.db ∧
    (uiSaveEntry a now false).1.recentEntries = a.recentEntries ∧
    getRecentEntries (uiSaveEntry a now false).1.db limit =
      getRecentEntries a.db limit := by
  simp [uiSaveEntry, hc]

/-- Witness for C9 at the concrete valid-text state `okApp`. -/
theorem write_failure_atomic_witness :
    jsTrim okApp.entryText ≠ "" ∧
    ((uiSaveEntry okApp "2025-01-01T10:00:00.000Z" false).2 =
        SaveOutcome.writeError ∧
     (uiSaveEntry okApp "2025-01-01T10:00:00.000Z" false).1.db = okApp.db ∧
     (uiSaveEntry okApp "2025-01-01T10:00:00.000Z" false).1.recentEntries =
        okApp.recentEntries ∧
     getRecentEntries
        (uiSaveEntry okApp "2025-01-01T10:00:00.000Z" false).1.db 10 =
       getRecentEntries okApp.db 10) :=
  ⟨by decide,
   write_failure_atomic okApp "2025-01-01T10:00:00.000Z" 10 (by decide)⟩

/-- Claim C10: `LoggerDB.saveEntry` stores the caller's object verbatim,
with no validation or normalization at the storage layer: for every store
state and every `EntryData` — including untrimmed or empty content, an
arbitrary type string, a caller-supplied timestamp, or `synced = true` —
the record appended is exactly the input fields plus the store-assigned
id, and the collection grows by one. -/
theorem dbSaveEntry_stores_verbatim (s : DBState) (d : EntryData) :
    (dbSaveEntry s d).entries =
      s.entries ++
        [{ id := s.nextId, type := d.type, content := d.content,
           timestamp := d.timestamp, synced := d.synced }] ∧
    (dbSaveEntry s d).entries.length = s.entries.length + 1 ∧
    (dbSaveEntry s d).nextId = s.nextId + 1 := by
  refine ⟨rfl, ?_, rfl⟩
  simp [dbSaveEntry]

end Logger
